import Mathlib

/-
Verification of the regreg proximal-operator / convex-duality engine
(atoms.py, generalized_lasso.py) against its natural-language specification.

Vectors are lists of rationals; machine floats are modelled by exact
rational arithmetic.  Optional numpy values (None) are modelled by Option.
Components of the repository that are referenced from atoms.py but whose
source is not part of src/ (identity_quadratic.py, the projl1 projection
primitive, composite.py, the FISTA inner solver) are modelled from the
specification text; each such definition says so in its doc comment.
-/

/-! Vector helpers over lists of rationals. -/

def vneg (v : List ℚ) : List ℚ := v.map (fun t => -t)

/-- Vector addition with numpy zero-broadcast semantics: the shorter operand
is padded with zeros, so the empty list (the scalar zero of an absent term)
is the additive identity and a scalar-zero quadratic term absorbs nothing. -/
def vaddB : List ℚ → List ℚ → List ℚ
  | [], b => b
  | a, [] => a
  | x :: xs, y :: ys => (x + y) :: vaddB xs ys

def vsub (a b : List ℚ) : List ℚ := List.zipWith (· - ·) a b

def vscale (c : ℚ) (v : List ℚ) : List ℚ := v.map (fun t => c * t)

def vdot (a b : List ℚ) : ℚ := (List.zipWith (· * ·) a b).sum

/-- Sign function with the semantics of np.sign: -1, 0 or 1. -/
def qsign (t : ℚ) : ℚ := if t < 0 then -1 else if 0 < t then 1 else 0

/-- Elementwise clip with the semantics of np.clip(t, lo, hi). -/
def clipQ (lo hi t : ℚ) : ℚ := min (max t lo) hi

/-! Exact Euclidean projection onto an L1 ball.  The repository imports this
primitive from projl1_cython / projl1_python, which are not under src/. -/

/-- Insert a value into a descending-sorted list, keeping it descending. -/
def insertDesc (a : ℚ) : List ℚ → List ℚ
  | [] => [a]
  | b :: t => if b < a then a :: b :: t else b :: insertDesc a t

/-- Sort a list of rationals in descending order (insertion sort). -/
def sortDesc : List ℚ → List ℚ
  | [] => []
  | a :: t => insertDesc a (sortDesc t)

/-- Threshold search for the sort-based L1 projection: walk the descending
magnitudes keeping the running cumulative sum, and return the last candidate
threshold (cum - radius) / k that stays below the current magnitude. -/
def thetaLoop (radius : ℚ) : List ℚ → ℚ → Nat → ℚ → ℚ
  | [], _, _, best => best
  | a :: t, cum, k, best =>
    let cum1 := cum + a
    let k1 := k + 1
    let cand := (cum1 - radius) / (k1 : ℚ)
    if cand < a then thetaLoop radius t cum1 k1 cand else best

/-- Modelled from the spec: project_onto_l1_ball(vector, radius) returns the
exact Euclidean projection of the vector onto the set of points of L1 norm at
most radius; a vector already inside the ball is returned unchanged, otherwise
the entries are soft-thresholded at the exact threshold found by the
sort-based reference algorithm.  The concrete projl1 source (projl1_cython /
projl1_python) is not in src/. -/
def projl1 (x : List ℚ) (radius : ℚ) : List ℚ :=
  if (x.map (fun t => |t|)).sum ≤ radius then x
  else
    let theta := thetaLoop radius (sortDesc (x.map (fun t => |t|))) 0 0 0
    x.map (fun v => qsign v * max (|v| - theta) 0)

/-! Quadratic terms.  The identity_quadratic class is imported by atoms.py but
its source is not under src/; the algebra below is modelled from spec 4.1. -/

/-- Modelled from the spec: a QuadraticTerm represents
(coef / 2) * norm(x - center)^2 + linear_term . x + constant_term, with an
optional center and an optional linear term (an absent linear term is carried
as the zero vector). -/
structure IdentityQuadratic where
  coef : ℚ
  center : Option (List ℚ)
  linear_term : List ℚ
  constant_term : ℚ
deriving DecidableEq

/-- Zero quadratic, the default attached to an atom at construction. -/
def zeroQ : IdentityQuadratic := ⟨0, none, [], 0⟩

/-- Modelled from the spec, section 4.1: zeroify collapses a center-based term
into pure linear-plus-constant form; a zero-coefficient quadratic simply drops
its (irrelevant) center. -/
def zeroify (q : IdentityQuadratic) : IdentityQuadratic :=
  if q.coef = 0 then ⟨0, none, q.linear_term, q.constant_term⟩
  else
    match q.center with
    | none => q
    | some c =>
      ⟨q.coef, none, vaddB q.linear_term (vscale (-q.coef) c),
       q.constant_term + q.coef / 2 * vdot c c⟩

/-- Modelled from the spec, section 4.1: addition sums the coefficients and
combines centers and linear terms by expanding both operands to canonical
linear-plus-constant form; linear terms combine with zero-broadcast padding
(numpy: a scalar-zero linear term plus a vector is that vector). -/
def addQ (a b : IdentityQuadratic) : IdentityQuadratic :=
  let a1 := zeroify a
  let b1 := zeroify b
  ⟨a1.coef + b1.coef, none, vaddB a1.linear_term b1.linear_term,
   a1.constant_term + b1.constant_term⟩

/-- Modelled from the spec, section 4.1: recenter(offset) returns the pair of
the offset and a quadratic whose value at x equals the original value at
x + offset; the coefficient is unchanged. -/
def recenterQ (q : IdentityQuadratic) (offset : Option (List ℚ)) :
    Option (List ℚ) × IdentityQuadratic :=
  match offset with
  | none => (none, zeroify q)
  | some off =>
    let q1 := zeroify q
    (some off,
     ⟨q1.coef, none, vaddB q1.linear_term (vscale q1.coef off),
      q1.constant_term + vdot q1.linear_term off + q1.coef / 2 * vdot off off⟩)

/-! The atom data model (atoms.py). -/

/-- Concrete atom subclasses defined in atoms.py that take part in the
conjugate pairing table. -/
inductive AtomClass where
  | l1norm
  | supnorm
  | l2norm
  | positive_part
  | constrained_max
  | constrained_positive_part
  | max_positive_part
deriving DecidableEq

/-- The conjugate_seminorm_pairs table of atoms.py (lines 808-814), built
there by inserting each listed pair in both directions. -/
def conjugate_seminorm_pairs : AtomClass → AtomClass
  | .l1norm => .supnorm
  | .supnorm => .l1norm
  | .l2norm => .l2norm
  | .positive_part => .constrained_max
  | .constrained_max => .positive_part
  | .constrained_positive_part => .max_positive_part
  | .max_positive_part => .constrained_positive_part

/-- An atom: class, primal shape, the two nullable mode fields (exactly one is
set by the constructor), optional offset and attached quadratic. -/
structure Atom where
  cls : AtomClass
  primal_shape : Nat
  lagrange : Option ℚ
  bound : Option ℚ
  offset : Option (List ℚ)
  quadratic : IdentityQuadratic
deriving DecidableEq

/-- Constructor checks of atom.__init__ (atoms.py lines 26-46), in source
order: both modes given, neither given, negative bound, negative lagrange.
An absent quadratic defaults to the zero quadratic (nonsmooth.__init__,
modelled from the spec data model: default zero). -/
def atom_init (cls : AtomClass) (primal_shape : Nat)
    (lagrange bound : Option ℚ) (offset : Option (List ℚ))
    (quadratic : Option IdentityQuadratic) : Except String Atom :=
  if ¬(bound = none ∨ lagrange = none) then
    .error "An atom must be either in Lagrange form or bound form. Only one of the parameters in the constructor can not be None."
  else if bound = none ∧ lagrange = none then
    .error "Atom must be in lagrange or bound form, as specified by the choice of one of the keyword arguments."
  else if (match bound with | some b => decide (b < 0) | none => false) then
    .error "Bound on the seminorm should be non-negative"
  else if (match lagrange with | some l => decide (l < 0) | none => false) then
    .error "Lagrange multiplier should be non-negative"
  else
    .ok ⟨cls, primal_shape, lagrange, bound, offset, quadratic.getD zeroQ⟩

/-- Equality test of atom.__eq__ (atoms.py lines 65-70): same class, then
compare bounds when self is in bound mode, else compare lagranges; a number
never equals None. -/
def atom_eq (a b : Atom) : Bool :=
  if a.cls = b.cls then
    match a.bound with
    | some v => b.bound == some v
    | none => a.lagrange == b.lagrange
  else false

/-- Helper of get_conjugate named with a leading underscore in the source
(atoms.py lines 818-830):
an absent offset stands for the scalar zero, modelled as the zero vector of
the primal shape. -/
def work_out_conjugate (shape : Nat) (offset : Option (List ℚ))
    (q : IdentityQuadratic) : Option (List ℚ) × IdentityQuadratic :=
  let off : List ℚ := offset.getD (List.replicate shape 0)
  (some (vneg q.linear_term),
   ⟨0, none, vneg off, -q.constant_term + vdot off q.linear_term⟩)

/-- Value part of atom.get_conjugate (atoms.py lines 111-136): zeroify the
attached quadratic; on the closed-form path (coefficient zero) build the
paired class in the opposite mode with the conjugated offset and quadratic.
The smooth_conjugate path taken for a nonzero coefficient lives in
composite.py, which is not under src/, and is modelled as none. -/
def get_conjugate (a : Atom) : Option Atom :=
  let q := zeroify a.quadratic
  if q.coef = 0 then
    let p := work_out_conjugate a.primal_shape a.offset q
    if a.bound = none then
      some ⟨conjugate_seminorm_pairs a.cls, a.primal_shape,
            none, a.lagrange, p.1, p.2⟩
    else
      some ⟨conjugate_seminorm_pairs a.cls, a.primal_shape,
            a.bound, none, p.1, p.2⟩
  else none

/-- Taking the conjugate twice (value level). -/
def conj2 (a : Atom) : Option Atom := (get_conjugate a).bind get_conjugate

/-- Semantic value of an optional offset: an absent offset is the zero vector
of the primal shape (numpy scalar-zero broadcast). -/
def offsetVal (shape : Nat) (o : Option (List ℚ)) : List ℚ :=
  o.getD (List.replicate shape 0)

/-! Closed-form proximal maps of the concrete atom classes (atoms.py).
Boolean masks model the numpy fancy-indexing pattern v[pos] = w. -/

/-- Entries of v at the true positions of the mask (numpy v[pos] read). -/
def maskSelect : List Bool → List ℚ → List ℚ
  | [], _ => []
  | true :: m, v => v.headD 0 :: maskSelect m v.tail
  | false :: m, v => maskSelect m v.tail

/-- Copy of v whose entries at the true positions of the mask are replaced by
the successive entries of w (numpy v[pos] = w write). -/
def maskScatter : List Bool → List ℚ → List ℚ → List ℚ
  | [], _, _ => []
  | true :: m, v, w => w.headD 0 :: maskScatter m v.tail w.tail
  | false :: m, v, w => v.headD 0 :: maskScatter m v.tail w

/-- Positivity mask pos = x > 0 used by the positive-part family. -/
def posMask (x : List ℚ) : List Bool := x.map (fun t => decide (0 < t))

/-- Soft threshold of l1norm.lagrange_prox (atoms.py lines 402-404):
np.sign(x) * np.maximum(np.fabs(x) - lagrange / lipschitz, 0). -/
def l1norm_lagrange_prox (x : List ℚ) (lipschitz lagrange : ℚ) : List ℚ :=
  x.map (fun u => qsign u * max (|u| - lagrange / lipschitz) 0)

/-- Projection of l1norm.bound_prox (atoms.py lines 407-410). -/
def l1norm_bound_prox (x : List ℚ) (bound : ℚ) : List ℚ :=
  projl1 x bound

/-- Residual form of supnorm.lagrange_prox (atoms.py lines 440-444):
x minus its projection onto the L1 ball of radius lagrange / lipschitz. -/
def supnorm_lagrange_prox (x : List ℚ) (lipschitz lagrange : ℚ) : List ℚ :=
  vsub x (projl1 x (lagrange / lipschitz))

/-- Clip of supnorm.bound_prox (atoms.py lines 447-449). -/
def supnorm_bound_prox (x : List ℚ) (bound : ℚ) : List ℚ :=
  x.map (clipQ (-bound) bound)

/-- Shrinkage of l2norm.lagrange_prox (atoms.py lines 479-486).  The
Euclidean norm is a real square root, not rational, so it is taken as an
explicit function argument. -/
def l2norm_lagrange_prox (norm2 : List ℚ → ℚ) (x : List ℚ)
    (lipschitz lagrange : ℚ) : List ℚ :=
  let n := norm2 x
  let proj := if n ≤ lagrange / lipschitz then x
              else vscale (lagrange / (lipschitz * n)) x
  vsub x proj

/-- Scaling of l2norm.bound_prox (atoms.py lines 489-495). -/
def l2norm_bound_prox (norm2 : List ℚ → ℚ) (x : List ℚ) (bound : ℚ) :
    List ℚ :=
  let n := norm2 x
  if n ≤ bound then x else vscale (bound / n) x

/-- Prox of positive_part.lagrange_prox (atoms.py lines 546-553): copy x and
soft-threshold the positive entries in place. -/
def positive_part_lagrange_prox (x : List ℚ) (lipschitz lagrange : ℚ) :
    List ℚ :=
  x.map (fun t => if 0 < t then max (t - lagrange / lipschitz) 0 else t)

/-- Prox of positive_part.bound_prox (atoms.py lines 556-564): copy x and
replace the positive entries by their L1-ball projection. -/
def positive_part_bound_prox (x : List ℚ) (bound : ℚ) : List ℚ :=
  let pos := posMask x
  if pos.any id then maskScatter pos x (projl1 (maskSelect pos x) bound)
  else x

/-- Prox of constrained_max.lagrange_prox (atoms.py lines 598-606): project
the positive entries of a copy of x onto the L1 ball, then return x minus the
copy. -/
def constrained_max_lagrange_prox (x : List ℚ) (lipschitz lagrange : ℚ) :
    List ℚ :=
  let pos := posMask x
  let v := if pos.any id then
             maskScatter pos x (projl1 (maskSelect pos x) (lagrange / lipschitz))
           else x
  vsub x v

/-- Clip of constrained_max.bound_prox (atoms.py lines 609-611). -/
def constrained_max_bound_prox (x : List ℚ) (bound : ℚ) : List ℚ :=
  x.map (clipQ 0 bound)

/-- Prox of constrained_positive_part.lagrange_prox (atoms.py lines 649-657):
start from zeros and write the thresholded positive entries of x. -/
def constrained_positive_part_lagrange_prox (x : List ℚ)
    (lipschitz lagrange : ℚ) : List ℚ :=
  x.map (fun t => if 0 < t then max (t - lagrange / lipschitz) 0 else 0)

/-- Prox of constrained_positive_part.bound_prox (atoms.py lines 661-669):
the source starts from v = zeros and assigns v[pos] = projl1(v[pos], bound),
projecting the zero vector rather than the positive entries of x. -/
def constrained_positive_part_bound_prox (x : List ℚ) (bound : ℚ) : List ℚ :=
  let v := List.replicate x.length (0 : ℚ)
  let pos := posMask x
  if pos.any id then maskScatter pos v (projl1 (maskSelect pos v) bound)
  else v

/-- Reading of the same bound_prox that C1 asserts, written from the words of
the specification (same positive-entry L1 projection of the input, zero
elsewhere) for comparison with the source definition above. -/
def claimed_cpp_bound_prox (x : List ℚ) (bound : ℚ) : List ℚ :=
  let pos := posMask x
  maskScatter pos (List.replicate x.length (0 : ℚ))
    (projl1 (maskSelect pos x) bound)

/-- Prox of max_positive_part.lagrange_prox (atoms.py lines 702-710): start
from v = zeros, assign v[pos] = projl1(v[pos], lagrange / lipschitz), return
x - v. -/
def max_positive_part_lagrange_prox (x : List ℚ) (lipschitz lagrange : ℚ) :
    List ℚ :=
  let z := List.replicate x.length (0 : ℚ)
  let pos := posMask x
  let v := if pos.any id then
             maskScatter pos z (projl1 (maskSelect pos z) (lagrange / lipschitz))
           else z
  vsub x v

/-- Clip of max_positive_part.bound_prox (atoms.py lines 697-699): clip above
at the bound, no lower clip. -/
def max_positive_part_bound_prox (x : List ℚ) (bound : ℚ) : List ℚ :=
  x.map (fun t => min t bound)

/-- Dispatch of the lagrange proximal maps by class. -/
def lagrange_prox_dispatch (norm2 : List ℚ → ℚ) :
    AtomClass → List ℚ → ℚ → ℚ → List ℚ
  | .l1norm => l1norm_lagrange_prox
  | .supnorm => supnorm_lagrange_prox
  | .l2norm => l2norm_lagrange_prox norm2
  | .positive_part => positive_part_lagrange_prox
  | .constrained_max => constrained_max_lagrange_prox
  | .constrained_positive_part => constrained_positive_part_lagrange_prox
  | .max_positive_part => max_positive_part_lagrange_prox

/-- Dispatch of the bound proximal maps by class; the bound maps of this file
ignore the lipschitz argument exactly as the source ones do. -/
def bound_prox_dispatch (norm2 : List ℚ → ℚ) :
    AtomClass → List ℚ → ℚ → ℚ → List ℚ
  | .l1norm => fun x _ b => l1norm_bound_prox x b
  | .supnorm => fun x _ b => supnorm_bound_prox x b
  | .l2norm => fun x _ b => l2norm_bound_prox norm2 x b
  | .positive_part => fun x _ b => positive_part_bound_prox x b
  | .constrained_max => fun x _ b => constrained_max_bound_prox x b
  | .constrained_positive_part => fun x _ b => constrained_positive_part_bound_prox x b
  | .max_positive_part => fun x _ b => max_positive_part_bound_prox x b

/-- The central proximal operation, atom.proximal (atoms.py lines 218-262):
fold the step quadratic with the attached one, recenter around the offset,
fail when the total coefficient is zero, form the argmin point, dispatch on
the mode, and undo the offset shift. -/
def proximal (norm2 : List ℚ → ℚ) (a : Atom) (proxq : IdentityQuadratic) :
    Except String (List ℚ) :=
  let p := recenterQ (addQ a.quadratic proxq) a.offset
  let offset := p.1
  let totalq := p.2
  if totalq.coef = 0 then
    .error "lipschitz + quadratic coef must be positive"
  else
    let prox_arg := totalq.linear_term.map (fun t => -t / totalq.coef)
    let eta? : Except String (List ℚ) :=
      match a.bound with
      | some b => .ok (bound_prox_dispatch norm2 a.cls prox_arg totalq.coef b)
      | none =>
        match a.lagrange with
        | some lam =>
          .ok (lagrange_prox_dispatch norm2 a.cls prox_arg totalq.coef lam)
        | none =>
          .error "either atom must be in Lagrange mode or a keyword argument must be supplied"
    match eta? with
    | .error e => .error e
    | .ok eta =>
      match offset with
      | none => .ok eta
      | some off => .ok (vsub eta off)

/-- Well-formedness established by the constructor: exactly one mode set. -/
def wfAtom (a : Atom) : Prop :=
  (a.lagrange.isSome ∧ a.bound = none) ∨ (a.bound.isSome ∧ a.lagrange = none)

/-- Folded total quadratic seen by proximal before the zero-coefficient
check. -/
def foldedTotal (a : Atom) (proxq : IdentityQuadratic) : IdentityQuadratic :=
  (recenterQ (addQ a.quadratic proxq) a.offset).2

/-! Seminorm value of constrained_max (atoms.py lines 577-585). -/

/-- Feasibility tolerance, atom.tol (atoms.py line 24). -/
def atomTol : ℚ := 1 / 100000

/-- Maximum entry, np.max of a nonempty array. -/
def npmax : List ℚ → ℚ
  | [] => 0
  | a :: t => t.foldl max a

/-- Lagrange-mode value of constrained_max.seminorm (atoms.py lines 577-585):
anyneg tests x < 0 + tol entrywise; the value is lagrange times the maximum,
and plus infinity when anyneg holds and feasibility is checked. -/
def constrained_max_seminorm (x : List ℚ) (lagrange : ℚ)
    (check_feasibility : Bool) : WithTop ℚ :=
  let anyneg := x.any (fun t => decide (t < 0 + atomTol))
  let v := lagrange * npmax x
  if !anyneg || !check_feasibility then (v : WithTop ℚ) else ⊤

/-! The generalized-lasso bi-level proximal step (generalized_lasso.py). -/

/-- Arguments handed to the inner dual solver by one proximal call: the
response installed by set_response, the rescaled L1 penalty installed by
assign_penalty, and the fit control parameters. -/
structure DualCall where
  response : List ℚ
  l1penalty : ℚ
  max_its : Nat
  tol : ℚ
deriving DecidableEq

/-- Iteration budget of generalized_lasso.dualcontrol (line 9). -/
def dualcontrol_max_its : Nat := 250

/-- Tolerance of generalized_lasso.dualcontrol (line 10). -/
def dualcontrol_tol : ℚ := 1 / 10 ^ 16

/-- Plumbing of generalized_lasso.proximal (generalized_lasso.py lines
54-59): v = z - g / L, install v as the dual response, install the penalty
rescaled by 1 / L, run the inner solver with the dualcontrol budget, and read
the primal reconstruction off the first component of the solver output.  The
inner solver (FISTA over signal_approximator, not under src/) is modelled
from the spec as a total function returning its best iterate, so no failure
path exists. -/
def generalized_lasso_proximal (solver : DualCall → List ℚ × List ℚ)
    (l1pen : ℚ) (z g : List ℚ) (L : ℚ) : List ℚ × DualCall :=
  let v := List.zipWith (fun zi gi => zi - gi / L) z g
  let call : DualCall := ⟨v, l1pen / L, dualcontrol_max_its, dualcontrol_tol⟩
  ((solver call).1, call)

/-! Heap model of the conjugate property (atoms.py lines 111-137).  Python
objects are cells of a store addressed by allocation index; the property
access atom.conjugate runs get_conjugate on the current store. -/

/-- One stored atom object: its value and its private conjugate reference
field (the back pointer written by get_conjugate). -/
structure AtomObj where
  val : Atom
  conjRef : Option Nat
deriving DecidableEq

/-- Object store; an object identity is its index, fresh objects are
appended. -/
def Store := List AtomObj

/-- Stateful reading of atom.get_conjugate (atoms.py lines 111-137) on the
closed-form path: the body never consults the stored conjRef cache, so every
access zeroifies the quadratic in place, allocates a fresh conjugate object,
and rewrites both links (self gets the fresh index, the fresh object points
back at self).  Returns the index of the returned object and the new store. -/
def get_conjugate_stateful (s : Store) (i : Nat) : Option (Nat × Store) :=
  match (s : List AtomObj).get? i with
  | none => none
  | some obj =>
    match get_conjugate obj.val with
    | none => none
    | some cval =>
      let j := (s : List AtomObj).length
      let zval := { obj.val with quadratic := zeroify obj.val.quadratic }
      let s1 := (s : List AtomObj).set i ⟨zval, some j⟩
      some (j, (s1 ++ [⟨cval, some i⟩] : List AtomObj))

/-- Concrete atom for the conjugate-cache scenario: an L1 atom of shape 1 in
lagrange mode with weight 1 and no offset. -/
def l1ExampleAtom : Atom := ⟨.l1norm, 1, some 1, none, none, zeroQ⟩

/-- Store holding only the example atom, at index 0. -/
def store0 : Store := ([⟨l1ExampleAtom, none⟩] : List AtomObj)

/-- Object identity returned by a first access of atom.conjugate. -/
def firstAccess : Option (Nat × Store) := get_conjugate_stateful store0 0

/-- Object identity returned by a second access of atom.conjugate on the
same atom. -/
def secondAccess : Option Nat :=
  (firstAccess.bind (fun p => get_conjugate_stateful p.2 0)).map Prod.fst

/-- Object identity returned by atom.conjugate.conjugate. -/
def conjOfConj : Option Nat :=
  (firstAccess.bind (fun p => get_conjugate_stateful p.2 p.1)).map Prod.fst

/-- Success test for a computation that can raise. -/
def exceptOk {α : Type} (e : Except String α) : Bool :=
  match e with
  | .ok _ => true
  | .error _ => false

/-- Optional scalar that is present and negative. -/
def optIsNeg (o : Option ℚ) : Prop :=
  match o with
  | some v => v < 0
  | none => False

/-- Quadratic part of the proximal objective, (L / 2) * norm(u - v)^2: the
spec (section 4.2) guarantees the vector returned by proximal minimizes this
subject to the atom's constraint (bound mode) or plus the weighted seminorm
(lagrange mode). -/
def proxObjective (L : ℚ) (u v : List ℚ) : ℚ :=
  L / 2 * (List.zipWith (fun a b => (a - b) ^ 2) u v).sum

/-- Feasible set of a bound-mode constrained_positive_part atom with no
offset: every entry nonnegative and the sum of positive parts at most the
bound (spec 4.3 row for constrained-positive-part). -/
def cpp_feasible (v : List ℚ) (bound : ℚ) : Prop :=
  (∀ t ∈ v, 0 ≤ t) ∧ (v.map (fun t => max t 0)).sum ≤ bound

/-- Bound-mode constrained_positive_part atom of shape 1 with bound 1, no
offset and the default zero quadratic. -/
def cppExampleAtom : Atom :=
  ⟨.constrained_positive_part, 1, none, some 1, none, zeroQ⟩

/-- Step quadratic with coefficient 1 and linear term [-3], so the folded
argmin point handed to the prox dispatch is u = [3]. -/
def cppExampleStep : IdentityQuadratic := ⟨1, none, [-3], 0⟩

/-! Helper lemmas. -/

theorem vneg_vneg (v : List ℚ) : vneg (vneg v) = v := by
  simp [vneg, List.map_map, Function.comp]

theorem vdot_comm (a b : List ℚ) : vdot a b = vdot b a := by
  induction a generalizing b with
  | nil => cases b <;> simp [vdot]
  | cons x xs ih =>
    cases b with
    | nil => simp [vdot]
    | cons y ys =>
      simp only [vdot, List.zipWith_cons_cons, List.sum_cons] at *
      rw [mul_comm, ih]

theorem vdot_neg_neg (a b : List ℚ) : vdot (vneg a) (vneg b) = vdot a b := by
  induction a generalizing b with
  | nil => cases b <;> simp [vdot, vneg]
  | cons x xs ih =>
    cases b with
    | nil => simp [vdot, vneg]
    | cons y ys =>
      simp only [vdot, vneg, List.map_cons, List.zipWith_cons_cons,
        List.sum_cons] at *
      rw [neg_mul_neg, ih]

theorem conjugate_pairs_involutive (t : AtomClass) :
    conjugate_seminorm_pairs (conjugate_seminorm_pairs t) = t := by
  cases t <;> rfl

/-! Claim theorems. -/

/-- C1.  The claim says constrained_positive_part.bound_prox returns the
exact L1-ball projection of the positive entries of the input, zero
elsewhere.  The source projects the zero vector instead of the positive
entries of the input: at input u = (3, -1) with bound 1 the code returns
(0, 0) while the claimed behavior gives (1, 0). -/
theorem constrained_positive_part_bound_prox_projects_zero_vector :
    constrained_positive_part_bound_prox [3, -1] 1 = [0, 0] ∧
    claimed_cpp_bound_prox [3, -1] 1 = [1, 0] ∧
    constrained_positive_part_bound_prox [3, -1] 1 ≠
      claimed_cpp_bound_prox [3, -1] 1 := by
  refine ⟨?h1, ?h2, ?h3⟩
  case h1 =>
    norm_num [constrained_positive_part_bound_prox, posMask, maskSelect,
      maskScatter, projl1, List.replicate, thetaLoop, sortDesc, insertDesc,
      qsign]
  case h2 =>
    norm_num [claimed_cpp_bound_prox, posMask, maskSelect, maskScatter,
      projl1, List.replicate, thetaLoop, sortDesc, insertDesc, qsign]
  case h3 =>
    norm_num [constrained_positive_part_bound_prox, claimed_cpp_bound_prox,
      posMask, maskSelect, maskScatter, projl1, List.replicate, thetaLoop,
      sortDesc, insertDesc, qsign]

/-- C2.  The claim says the conjugate is cached on first access, every later
access returns the identical object, and a.conjugate.conjugate is a itself.
In the source the conjugate property never reads the stored cache: on the
store holding one atom at index 0, the first access allocates object 1, the
second access allocates object 2 (a different object), and
atom.conjugate.conjugate is the freshly allocated object 2, not object 0. -/
theorem conjugate_access_recomputes_every_time :
    firstAccess.map Prod.fst = some 1 ∧
    secondAccess = some 2 ∧
    secondAccess ≠ firstAccess.map Prod.fst ∧
    conjOfConj = some 2 ∧
    conjOfConj ≠ some 0 := by
  refine ⟨by decide, by decide, by decide, by decide, by decide⟩

/-- C9.  One generalized_lasso proximal call sets the dual response to
z - g / L, rescales the L1 penalty by 1 / L, runs the inner solver with
max_its 250 and tolerance 1e-16, and returns the first component of the
solver output; the solver is total (best effort, no exception), so the call
always returns. -/
theorem generalized_lasso_proximal_plumbing :
    ∀ (solver : DualCall → List ℚ × List ℚ) (l1pen : ℚ) (z g : List ℚ)
      (L : ℚ),
      (generalized_lasso_proximal solver l1pen z g L).2.response =
        List.zipWith (fun zi gi => zi - gi / L) z g ∧
      (generalized_lasso_proximal solver l1pen z g L).2.l1penalty =
        l1pen / L ∧
      (generalized_lasso_proximal solver l1pen z g L).2.max_its = 250 ∧
      (generalized_lasso_proximal solver l1pen z g L).2.tol = 1 / 10 ^ 16 ∧
      (generalized_lasso_proximal solver l1pen z g L).1 =
        (solver (generalized_lasso_proximal solver l1pen z g L).2).1 := by
  intro solver l1pen z g L
  exact ⟨rfl, rfl, rfl, rfl, rfl⟩

/-- C10.  Atom equality is decided solely by the concrete class and the
active mode scalar: it is unchanged when offsets, quadratics and shapes are
stripped, and it holds exactly when the classes agree and the bound (in bound
mode) or else the lagrange fields agree; different classes never compare
equal. -/
theorem atom_eq_depends_only_on_class_and_scalar :
    (∀ a b : Atom,
      atom_eq a b =
        atom_eq ⟨a.cls, 0, a.lagrange, a.bound, none, zeroQ⟩
          ⟨b.cls, 0, b.lagrange, b.bound, none, zeroQ⟩) ∧
    (∀ a b : Atom,
      atom_eq a b = true ↔
        (a.cls = b.cls ∧
          ((a.bound.isSome ∧ a.bound = b.bound) ∨
           (a.bound = none ∧ a.lagrange = b.lagrange)))) := by
  constructor
  · intro a b
    rfl
  · intro a b
    unfold atom_eq
    by_cases hc : a.cls = b.cls
    · cases hab : a.bound with
      | some v =>
        simp [hc, hab]
        constructor
        · intro h; exact h.symm
        · intro h; exact h.symm
      | none => simp [hc, hab]
    · simp [hc]

/-- C6.  Atom construction fails exactly when both mode parameters are
supplied, neither is supplied, or the supplied bound or lagrange weight is
negative; equivalently, construction with exactly one non-negative parameter
succeeds. -/
theorem atom_init_error_conditions :
    ∀ (c : AtomClass) (s : Nat) (lag bnd : Option ℚ)
      (off : Option (List ℚ)) (q : Option IdentityQuadratic),
      exceptOk (atom_init c s lag bnd off q) = false ↔
        ((lag ≠ none ∧ bnd ≠ none) ∨ (lag = none ∧ bnd = none) ∨
         optIsNeg bnd ∨ optIsNeg lag) := by
  intro c s lag bnd off q
  cases lag with
  | none =>
    cases bnd with
    | none => simp [atom_init, exceptOk, optIsNeg]
    | some b =>
      by_cases hb : b < 0 <;> simp [atom_init, exceptOk, optIsNeg, hb]
  | some l =>
    cases bnd with
    | none =>
      by_cases hl : l < 0 <;> simp [atom_init, exceptOk, optIsNeg, hl]
    | some b => simp [atom_init, exceptOk, optIsNeg]

/-- C8 counterexample.  At x = [0] every entry satisfies x_i >= 0, yet
constrained_max.seminorm with check_feasibility returns plus infinity rather
than lagrange times the maximum: the source tests x < 0 + tol, which flags
the feasible point 0. -/
theorem constrained_max_seminorm_rejects_zero :
    (∀ t ∈ ([0] : List ℚ), 0 ≤ t) ∧
    constrained_max_seminorm [0] 1 true = ⊤ ∧
    constrained_max_seminorm [0] 1 true ≠
      ((1 * npmax [0] : ℚ) : WithTop ℚ) := by
  refine ⟨by norm_num, ?h2, ?h3⟩
  case h2 => norm_num [constrained_max_seminorm, atomTol]
  case h3 => norm_num [constrained_max_seminorm, atomTol, npmax]

/-- C8 amended.  With check_feasibility set, constrained_max.seminorm on a
nonempty x returns lagrange times the maximum whenever every entry is at
least tol = 1e-5, and plus infinity whenever some entry is below tol; the
threshold is tol, not 0 as the claim states. -/
theorem constrained_max_seminorm_tolerance (lam : ℚ) (x : List ℚ)
    (hx : x ≠ []) :
    ((∀ t ∈ x, atomTol ≤ t) →
      constrained_max_seminorm x lam true =
        ((lam * npmax x : ℚ) : WithTop ℚ)) ∧
    ((∃ t ∈ x, t < atomTol) →
      constrained_max_seminorm x lam true = ⊤) := by
  constructor
  · intro h
    have hA : x.any (fun t => decide (t < 0 + atomTol)) = false := by
      simp only [List.any_eq_false, decide_eq_true_eq, zero_add]
      intro t ht
      exact not_lt.mpr (h t ht)
    simp only [constrained_max_seminorm]
    rw [hA]
    simp
  · intro h
    obtain ⟨t, ht, hlt⟩ := h
    have hA : x.any (fun t => decide (t < 0 + atomTol)) = true := by
      simp only [List.any_eq_true, decide_eq_true_eq, zero_add]
      exact ⟨t, ht, hlt⟩
    simp only [constrained_max_seminorm]
    rw [hA]
    simp

/-- C8 witness for the amended statement, at lam = 2 and x = [3]. -/
theorem constrained_max_seminorm_tolerance_witness :
    ((∀ t ∈ ([3] : List ℚ), atomTol ≤ t) →
      constrained_max_seminorm [3] 2 true =
        ((2 * npmax [3] : ℚ) : WithTop ℚ)) ∧
    ((∃ t ∈ ([3] : List ℚ), t < atomTol) →
      constrained_max_seminorm [3] 2 true = ⊤) :=
  constrained_max_seminorm_tolerance 2 [3] (by simp)

/-- C3.  For every well-formed atom whose attached quadratic has coefficient
zero, taking the conjugate twice reproduces the atom's class, mode and weight
(the lagrange and bound fields), its offset (an absent offset being the zero
vector), and the linear and constant terms of its quadratic. -/
theorem conjugate_involution_on_values (a : Atom) (hw : wfAtom a)
    (h : a.quadratic.coef = 0) :
    (conj2 a).map (fun b =>
        (b.cls, b.lagrange, b.bound, offsetVal a.primal_shape b.offset,
         b.quadratic.linear_term, b.quadratic.constant_term)) =
      some (a.cls, a.lagrange, a.bound, offsetVal a.primal_shape a.offset,
            a.quadratic.linear_term, a.quadratic.constant_term) := by
  obtain ⟨cls, sh, lag, bnd, off, ⟨qc, qcen, ql, qk⟩⟩ := a
  simp only [wfAtom] at hw
  simp only at h
  subst h
  rcases hw with ⟨hl, hb⟩ | ⟨hb, hl⟩
  · subst hb
    obtain ⟨lam, rfl⟩ := Option.isSome_iff_exists.mp hl
    simp [conj2, get_conjugate, zeroify, work_out_conjugate, offsetVal,
      Option.bind, conjugate_pairs_involutive, vneg_vneg, vdot_neg_neg]
    rw [vdot_comm]
    ring
  · subst hl
    obtain ⟨bd, rfl⟩ := Option.isSome_iff_exists.mp hb
    simp [conj2, get_conjugate, zeroify, work_out_conjugate, offsetVal,
      Option.bind, conjugate_pairs_involutive, vneg_vneg, vdot_neg_neg]
    rw [vdot_comm]
    ring

/-- C4.  The conjugate of an l1norm atom in lagrange mode is a supnorm atom
in bound mode with bound equal to the lagrange value, the conjugate of a
supnorm atom in bound mode is an l1norm atom in lagrange mode with lagrange
equal to the bound, and the pairing table is an involution on every
subtype. -/
theorem l1_supnorm_duality_pairing :
    (∀ (sh : Nat) (lam : ℚ) (off : Option (List ℚ)) (q : IdentityQuadratic),
      q.coef = 0 →
      (get_conjugate ⟨.l1norm, sh, some lam, none, off, q⟩).map
          (fun b => (b.cls, b.bound, b.lagrange)) =
        some (.supnorm, some lam, none)) ∧
    (∀ (sh : Nat) (bd : ℚ) (off : Option (List ℚ)) (q : IdentityQuadratic),
      q.coef = 0 →
      (get_conjugate ⟨.supnorm, sh, none, some bd, off, q⟩).map
          (fun b => (b.cls, b.lagrange, b.bound)) =
        some (.l1norm, some bd, none)) ∧
    (∀ t : AtomClass,
      conjugate_seminorm_pairs (conjugate_seminorm_pairs t) = t) := by
  refine ⟨?p1, ?p2, conjugate_pairs_involutive⟩
  · intro sh lam off q hq
    obtain ⟨qc, qcen, ql, qk⟩ := q
    simp only at hq
    subst hq
    simp [get_conjugate, zeroify, conjugate_seminorm_pairs]
  · intro sh bd off q hq
    obtain ⟨qc, qcen, ql, qk⟩ := q
    simp only at hq
    subst hq
    simp [get_conjugate, zeroify, conjugate_seminorm_pairs]

/-- Error dichotomy of proximal: for every well-formed atom and step
quadratic, proximal raises an error exactly when the folded total quadratic's
coefficient is zero, and returns without error whenever the coefficient is
positive.  This is the half of C5 the source satisfies; the minimizer half is
refuted below. -/
theorem proximal_errors_iff_zero_coefficient (norm2 : List ℚ → ℚ)
    (a : Atom) (proxq : IdentityQuadratic) (hw : wfAtom a) :
    (exceptOk (proximal norm2 a proxq) = false ↔
      (foldedTotal a proxq).coef = 0) ∧
    (0 < (foldedTotal a proxq).coef →
      exceptOk (proximal norm2 a proxq) = true) := by
  have key : exceptOk (proximal norm2 a proxq) = false ↔
      (foldedTotal a proxq).coef = 0 := by
    by_cases hc : (foldedTotal a proxq).coef = 0
    · simp [proximal, foldedTotal, exceptOk] at hc ⊢
      simp [hc]
    · simp only [foldedTotal] at hc
      rcases hw with ⟨hl, hb⟩ | ⟨hb, hl⟩
      · obtain ⟨lam, hlam⟩ := Option.isSome_iff_exists.mp hl
        simp only [proximal, foldedTotal, exceptOk, hb, hlam, hc, if_neg hc]
        cases (recenterQ (addQ a.quadratic proxq) a.offset).1 <;> simp [hc]
      · obtain ⟨bd, hbd⟩ := Option.isSome_iff_exists.mp hb
        simp only [proximal, foldedTotal, exceptOk, hbd, hc, if_neg hc]
        cases (recenterQ (addQ a.quadratic proxq) a.offset).1 <;> simp [hc]
  refine ⟨key, ?_⟩
  intro hpos
  have hne : (foldedTotal a proxq).coef ≠ 0 := ne_of_gt hpos
  rcases hok : exceptOk (proximal norm2 a proxq) with _ | _
  · exact absurd (key.mp hok) hne
  · rfl

/-- Soft thresholding at lam / L is the exact minimizer of the scalar
proximal objective L / 2 * (u - s)^2 + lam * abs s. -/
theorem soft_threshold_minimizes (L lam u t : ℚ) (hL : 0 < L)
    (hlam : 0 ≤ lam) :
    L / 2 * (u - qsign u * max (|u| - lam / L) 0) ^ 2 +
        lam * |qsign u * max (|u| - lam / L) 0| ≤
      L / 2 * (u - t) ^ 2 + lam * |t| := by
  have hLc : L * (lam / L) = lam := by field_simp
  have hc : 0 ≤ lam / L := div_nonneg hlam hL.le
  rcases lt_trichotomy u 0 with hu | hu | hu
  · have habs : |u| = -u := abs_of_neg hu
    have hs : qsign u = -1 := by simp [qsign, hu]
    rw [hs, habs]
    by_cases hth : -u - lam / L ≤ 0
    · rw [max_eq_right hth]
      have key : L * (-u) ≤ lam := by
        have h1 : -u ≤ lam / L := by linarith
        have h2 := mul_le_mul_of_nonneg_left h1 hL.le
        rw [hLc] at h2
        exact h2
      simp only [mul_zero, neg_zero, abs_zero, sub_zero]
      rcases abs_cases t with ⟨h1, h2⟩ | ⟨h1, h2⟩
      · rw [h1]
        nlinarith [mul_nonneg (mul_nonneg hL.le (neg_nonneg.mpr hu.le)) h2,
          mul_nonneg hlam h2, mul_nonneg hL.le (sq_nonneg t)]
      · rw [h1]
        nlinarith [mul_nonneg (neg_nonneg.mpr h2.le)
            (by linarith : (0:ℚ) ≤ L * u + lam),
          mul_nonneg hL.le (sq_nonneg t)]
    · push_neg at hth
      rw [max_eq_left hth.le]
      have habs2 : |(-1 : ℚ) * (-u - lam / L)| = -u - lam / L := by
        rw [abs_mul]
        simp [abs_of_pos hth]
      rw [habs2]
      generalize hgen : lam / L = c at hth hc hLc ⊢
      rw [← hLc]
      rcases abs_cases t with ⟨h1, h2⟩ | ⟨h1, h2⟩
      · rw [h1]
        nlinarith [mul_nonneg hL.le (sq_nonneg (u - t + c)),
          mul_nonneg (mul_nonneg hL.le hc) h2]
      · rw [h1]
        nlinarith [mul_nonneg hL.le (sq_nonneg (u - t + c)),
          mul_nonneg (mul_nonneg hL.le hc) (neg_nonneg.mpr h2.le)]
  · subst hu
    have hs : qsign 0 = 0 := by simp [qsign]
    rw [hs]
    simp only [zero_mul, abs_zero, mul_zero, sub_zero, zero_sub, add_zero]
    nlinarith [sq_nonneg t, abs_nonneg t, mul_nonneg hlam (abs_nonneg t)]
  · have habs : |u| = u := abs_of_pos hu
    have hs : qsign u = 1 := by simp [qsign, hu, not_lt.mpr hu.le]
    rw [hs, habs]
    by_cases hth : u - lam / L ≤ 0
    · rw [max_eq_right hth]
      have key : L * u ≤ lam := by
        have h1 : u ≤ lam / L := by linarith
        have h2 := mul_le_mul_of_nonneg_left h1 hL.le
        rw [hLc] at h2
        exact h2
      simp only [mul_zero, abs_zero, sub_zero, one_mul]
      rcases abs_cases t with ⟨h1, h2⟩ | ⟨h1, h2⟩
      · rw [h1]
        nlinarith [mul_nonneg h2 (sub_nonneg.mpr key),
          mul_nonneg hL.le (sq_nonneg t)]
      · rw [h1]
        nlinarith [mul_nonneg (mul_nonneg hL.le hu.le) (neg_nonneg.mpr h2.le),
          mul_nonneg hlam (neg_nonneg.mpr h2.le),
          mul_nonneg hL.le (sq_nonneg t)]
    · push_neg at hth
      rw [max_eq_left hth.le]
      have habs2 : |(1 : ℚ) * (u - lam / L)| = u - lam / L := by
        rw [one_mul]
        exact abs_of_pos hth
      rw [habs2]
      generalize hgen : lam / L = c at hth hc hLc ⊢
      rw [← hLc]
      rcases abs_cases t with ⟨h1, h2⟩ | ⟨h1, h2⟩
      · rw [h1]
        nlinarith [mul_nonneg hL.le (sq_nonneg (u - t - c)),
          mul_nonneg (mul_nonneg hL.le hc) h2]
      · rw [h1]
        nlinarith [mul_nonneg hL.le (sq_nonneg (u - t - c)),
          mul_nonneg (mul_nonneg hL.le hc) (neg_nonneg.mpr h2.le)]

/-- C7.  For lipschitz L > 0 and lagrange lam >= 0, l1norm.lagrange_prox is
the elementwise soft-threshold sign(u) * max(abs u - lam / L, 0), each entry
of the output is the exact minimizer of its scalar proximal objective, and at
lagrange 2 and lipschitz 1 the input [3, -1, 1/2] maps to [1, 0, 0]. -/
theorem l1norm_lagrange_prox_soft_thresholds (x : List ℚ) (L lam : ℚ)
    (hL : 0 < L) (hlam : 0 ≤ lam) :
    l1norm_lagrange_prox x L lam =
      x.map (fun u => qsign u * max (|u| - lam / L) 0) ∧
    (∀ u ∈ x, ∀ t : ℚ,
      L / 2 * (u - qsign u * max (|u| - lam / L) 0) ^ 2 +
          lam * |qsign u * max (|u| - lam / L) 0| ≤
        L / 2 * (u - t) ^ 2 + lam * |t|) ∧
    l1norm_lagrange_prox [3, -1, 1/2] 1 2 = [1, 0, 0] := by
  refine ⟨rfl, ?opt, ?ex⟩
  case opt =>
    intro u _ t
    exact soft_threshold_minimizes L lam u t hL hlam
  case ex =>
    norm_num [l1norm_lagrange_prox, qsign, abs_of_pos, abs_of_neg]

/-- C7 witness at x = [3, -1, 1/2], L = 1, lam = 2. -/
theorem l1norm_lagrange_prox_soft_thresholds_witness :
    ((0:ℚ) < 1 ∧ (0:ℚ) ≤ 2) ∧
    (l1norm_lagrange_prox [3, -1, 1/2] 1 2 =
      ([3, -1, 1/2] : List ℚ).map (fun u => qsign u * max (|u| - 2 / 1) 0) ∧
    (∀ u ∈ ([3, -1, 1/2] : List ℚ), ∀ t : ℚ,
      1 / 2 * (u - qsign u * max (|u| - 2 / 1) 0) ^ 2 +
          2 * |qsign u * max (|u| - 2 / 1) 0| ≤
        1 / 2 * (u - t) ^ 2 + 2 * |t|) ∧
    l1norm_lagrange_prox [3, -1, 1/2] 1 2 = [1, 0, 0]) :=
  ⟨⟨by norm_num, by norm_num⟩,
   l1norm_lagrange_prox_soft_thresholds [3, -1, 1/2] 1 2 (by norm_num)
     (by norm_num)⟩

/-- C3 witness: a positive_part atom of shape 2, lagrange 3, offset [5, -7]
and zero-coefficient quadratic with center [9], linear term [1, 2] and
constant 4. -/
theorem conjugate_involution_on_values_witness :
    (conj2 ⟨.positive_part, 2, some 3, none, some [5, -7],
        ⟨0, some [9], [1, 2], 4⟩⟩).map (fun b =>
        (b.cls, b.lagrange, b.bound, offsetVal 2 b.offset,
         b.quadratic.linear_term, b.quadratic.constant_term)) =
      some (.positive_part, some 3, none, offsetVal 2 (some [5, -7]),
            [1, 2], 4) :=
  conjugate_involution_on_values
    ⟨.positive_part, 2, some 3, none, some [5, -7], ⟨0, some [9], [1, 2], 4⟩⟩
    (Or.inl ⟨rfl, rfl⟩) rfl

/-- C4 witness: the conjugate of an l1norm atom of shape 3 with lagrange 2 is
a supnorm atom with bound 2. -/
theorem l1_supnorm_duality_pairing_witness :
    (get_conjugate ⟨.l1norm, 3, some 2, none, none, zeroQ⟩).map
        (fun b => (b.cls, b.bound, b.lagrange)) =
      some (.supnorm, some 2, none) :=
  l1_supnorm_duality_pairing.1 3 2 none zeroQ rfl

/-- Instance of the error dichotomy at the example l1norm atom with a
unit-coefficient step quadratic. -/
theorem proximal_errors_iff_zero_coefficient_witness :
    (exceptOk (proximal (fun _ => 0) l1ExampleAtom ⟨1, none, [2], 0⟩) =
        false ↔
      (foldedTotal l1ExampleAtom ⟨1, none, [2], 0⟩).coef = 0) ∧
    (0 < (foldedTotal l1ExampleAtom ⟨1, none, [2], 0⟩).coef →
      exceptOk (proximal (fun _ => 0) l1ExampleAtom ⟨1, none, [2], 0⟩) =
        true) :=
  proximal_errors_iff_zero_coefficient (fun _ => 0) l1ExampleAtom
    ⟨1, none, [2], 0⟩ (Or.inl ⟨rfl, rfl⟩)

/-- C5.  The claim says proximal raises exactly when the folded total
quadratic's coefficient is 0, and with a positive coefficient returns a
minimizer.  The error dichotomy holds (theorem
proximal_errors_iff_zero_coefficient above), but the minimizer half fails in
the source: on a bound-mode constrained_positive_part atom with bound 1 and a
step quadratic of coefficient 1 whose argmin point is u = [3], proximal
returns [0] (through the zeros projection of bound_prox, the C1 defect),
while the feasible point [1] has a strictly smaller proximal objective, so
the returned vector is not the minimizer. -/
theorem proximal_positive_coefficient_not_minimizer :
    (foldedTotal cppExampleAtom cppExampleStep).coef = 1 ∧
    proximal (fun _ => 0) cppExampleAtom cppExampleStep = .ok [0] ∧
    cpp_feasible [0] 1 ∧ cpp_feasible [1] 1 ∧
    proxObjective 1 [3] [1] < proxObjective 1 [3] [0] := by
  refine ⟨?h1, ?h2, ?h3, ?h4, ?h5⟩
  case h1 =>
    norm_num [foldedTotal, recenterQ, addQ, zeroify, zeroQ, cppExampleAtom,
      cppExampleStep]
  case h2 =>
    norm_num [proximal, recenterQ, addQ, zeroify, zeroQ, vaddB,
      cppExampleAtom, cppExampleStep, bound_prox_dispatch,
      constrained_positive_part_bound_prox, posMask, maskSelect, maskScatter,
      projl1, List.replicate]
  case h3 => norm_num [cpp_feasible]
  case h4 => norm_num [cpp_feasible]
  case h5 => norm_num [proxObjective]
